import Mathlib

/-!
Verification development for the QunTime worker pool
(src/Tensor/QunTime.js): a parallel optimizer with an optional
entangled mode in which workers share a best-score register
(an Int32Array cell over a SharedArrayBuffer, accessed via Atomics).

JavaScript numbers are modelled as rationals; the Int32 register cell
is modelled as an integer together with the ToInt32 coercion that
JavaScript applies when assigning into an Int32Array. The coordinator
promise of parallel is modelled as a fold over the stream of worker
message and error events, and maybeUpdateShared is modelled both as a
single uninterrupted call and as a two-action (load, conditional
store) interleaving machine.
-/

/-- JavaScript Number.MAX_SAFE_INTEGER. -/
def maxSafeInteger : ℤ := 2 ^ 53 - 1

/-- The largest value representable in an Int32Array cell. -/
def int32Max : ℤ := 2 ^ 31 - 1

/-- The ToInt32 coercion JavaScript applies when a number is assigned
into an Int32Array cell (wrap modulo 2^32 into the signed range). -/
def toInt32 (n : ℤ) : ℤ := (n + 2 ^ 31) % 2 ^ 32 - 2 ^ 31

/-- The integers representable in an Int32 cell without wrapping. -/
def inInt32Range (n : ℤ) : Prop := -(2 ^ 31) ≤ n ∧ n < 2 ^ 31

instance (n : ℤ) : Decidable (inInt32Range n) := by
  unfold inInt32Range; infer_instance

/-- The initial register value written by parallel when entangled mode
is on: the source assigns Number.MAX_SAFE_INTEGER into the Int32Array,
which lands as toInt32 maxSafeInteger. -/
def initReg : ℤ := toInt32 maxSafeInteger

/-- Score-to-register scaling from maybeUpdateShared in the source:
Math.floor(score * 1e6). -/
def scaled (score : ℚ) : ℤ := ⌊score * 1000000⌋

/-- De-scaling applied to the register value when a worker computes
startingBest: Atomics.load(sharedArray, 0) / 1e6. -/
def descale (r : ℤ) : ℚ := (r : ℚ) / 1000000

/-- Modelled from the spec: truncation toward zero, the rounding the
spec attributes to score-to-register scaling. Used only to compare the
spec wording with the floor rounding the source actually performs. -/
def truncTowardZero (q : ℚ) : ℤ := if 0 ≤ q then ⌊q⌋ else ⌈q⌉

/-- One call of maybeUpdateShared from the source, executed without
interleaving (the load and the conditional store happen back to back):
load current, and if scaled score < current, store the scaled score
(through the Int32 coercion of Atomics.store). -/
def maybeUpdateShared (reg : ℤ) (score : ℚ) : ℤ :=
  if scaled score < reg then toInt32 (scaled score) else reg

/-!
The interleaving machine for maybeUpdateShared.

A call of maybeUpdateShared performs two separate atomic actions on the
shared register: an Atomics.load of the current value, then (if the
scaled score beats the loaded value) an Atomics.store. Between the two
actions other workers may act on the register. The machine below has k
workers, each making one maybeUpdateShared call; a schedule is a list
of worker indices, and scheduling a worker runs its next pending
action: first its load, then its conditional store; a finished worker
ignores further scheduling.
-/

/-- Program counter of one worker inside its maybeUpdateShared call. -/
inductive PC where
  | start : PC
  | loadedVal : ℤ → PC
  | done : PC
deriving DecidableEq

/-- Shared register together with each worker's local state. -/
structure MachineState (k : ℕ) where
  reg : ℤ
  pcs : Fin k → PC

/-- One atomic action of worker i, following the body of
maybeUpdateShared in the source: the load records the current register
in the worker's local variable; the store writes toInt32 of the scaled
score only when the scaled score is below the value this worker
loaded. -/
def mStep {k : ℕ} (scores : Fin k → ℚ) (s : MachineState k) (i : Fin k) :
    MachineState k :=
  match s.pcs i with
  | PC.start => ⟨s.reg, Function.update s.pcs i (PC.loadedVal s.reg)⟩
  | PC.loadedVal cur =>
      if scaled (scores i) < cur then
        ⟨toInt32 (scaled (scores i)), Function.update s.pcs i PC.done⟩
      else
        ⟨s.reg, Function.update s.pcs i PC.done⟩
  | PC.done => s

/-- Initial machine state: register as parallel initializes it, every
worker about to issue its load. -/
def mInit (k : ℕ) : MachineState k := ⟨initReg, fun _ => PC.start⟩

/-- Run the machine under a schedule (a list of worker indices). -/
def mRun {k : ℕ} (scores : Fin k → ℚ) (sched : List (Fin k)) :
    MachineState k :=
  sched.foldl (mStep scores) (mInit k)

/-- Concrete scores for the lost-update interleaving: worker 0
publishes -3, worker 1 publishes -5. -/
def cScores1 : Fin 2 → ℚ := ![-3, -5]

/-- Concrete scores for the register-increase interleaving: worker 0
publishes -7, worker 1 publishes -9. -/
def cScores2 : Fin 2 → ℚ := ![-7, -9]

/-!
Worker wiring: how parallel passes the entangled snapshot and the
shared buffer to each worker, and how the worker computes
startingBest. startingBest is +infinity exactly when the worker has no
shared array; with a shared array it is the register value at the
moment of the single Atomics.load, divided by 1e6. Infinity is
modelled as the top element of WithTop ℚ.
-/

/-- The workerData object parallel passes to each spawned worker:
the entangled snapshot, and whether a sharedBuffer reference was
passed (the source passes the buffer exactly when the snapshot is
true, and allocates it exactly then as well). -/
structure WorkerData where
  entangled : Bool
  sharedBuffer : Bool
deriving DecidableEq

/-- workerData as built in the source: entangled is the launch-time
snapshot, sharedBuffer is passed exactly when that snapshot is true. -/
def mkWorkerData (entangledEnabled : Bool) : WorkerData :=
  ⟨entangledEnabled, entangledEnabled⟩

/-- Whether the worker sets up its Int32Array view: the source guards
on entangled AND a non-null sharedBuffer. -/
def workerHasShared (wd : WorkerData) : Bool :=
  wd.entangled && wd.sharedBuffer

/-- startingBest as computed in the worker preamble, given the
register value at the moment of its single read: the de-scaled
register when a shared view exists, +infinity otherwise. -/
def startingBest (wd : WorkerData) (regVal : ℤ) : WithTop ℚ :=
  if workerHasShared wd then ((descale regVal : ℚ) : WithTop ℚ) else ⊤

/-!
The QunTime class state and the launch-time snapshot of the entangled
flag taken by parallel before spawning the workers.
-/

/-- Mutable class state of QunTime: the process-wide entangled flag. -/
structure QunTimeState where
  entangled : Bool
deriving DecidableEq

/-- QunTime.entangledMode: overwrite the flag. -/
def entangledMode (_s : QunTimeState) (enable : Bool) : QunTimeState :=
  ⟨enable⟩

/-- The per-run configuration parallel computes at launch: the
snapshot of the flag, and the allocated shared register (present and
initialized exactly when the snapshot is true). -/
structure RunConfig where
  entangledEnabled : Bool
  sharedRegInit : Option ℤ
deriving DecidableEq

/-- The configuration captured by parallel at launch. -/
def launchConfig (s : QunTimeState) : RunConfig :=
  ⟨s.entangled, if s.entangled then some initReg else none⟩

/-- Everything a run wires up at launch: the captured configuration
and the workerData handed to each of the count workers. All of it is
computed from the launch-time state only. -/
def parallelSetup (s : QunTimeState) (count : ℕ) :
    RunConfig × List WorkerData :=
  (launchConfig s, (List.range count).map fun _ =>
    mkWorkerData (launchConfig s).entangledEnabled)

/-- The default for the count parameter of parallel. -/
def parallelDefaultCount : ℕ := 4

/-- A task that ignores its startingBest argument and returns the
constant c; the shape of task used by the constant-task property. -/
def constTask {V : Type} (c : V) : WithTop ℚ → V := fun _ => c

/-!
The coordinator promise of parallel, modelled as a fold over the
stream of worker events in the order the runtime delivers them. A
message event runs the message handler (push the result, increment
completed, resolve when completed reaches count); an error event runs
the error handler (reject). A promise settles at most once: later
resolve and reject calls are no-ops, which the fold expresses by
keeping the first settlement.
-/

/-- A terminal event from one worker: a posted message carrying the
task result, or an error. -/
inductive WEvent (V E : Type) where
  | message : V → WEvent V E
  | error : E → WEvent V E

/-- Coordinator state inside the promise executor: the completed
counter, the results array, and the settlement (none while pending). -/
structure PromiseState (V E : Type) where
  completed : ℕ
  results : List V
  settled : Option (Except E (List V))

/-- The two event handlers registered on each worker in the source.
On message: push the result, increment completed, and resolve with the
results when completed equals count. On error: reject with the error.
Settling is recorded only if the promise is still pending. -/
def handleEvent {V E : Type} (count : ℕ) (s : PromiseState V E)
    (ev : WEvent V E) : PromiseState V E :=
  match ev with
  | WEvent.message v =>
      { completed := s.completed + 1,
        results := s.results ++ [v],
        settled :=
          if s.settled.isSome then s.settled
          else if s.completed + 1 = count then
            some (Except.ok (s.results ++ [v]))
          else none }
  | WEvent.error e =>
      { s with settled :=
          if s.settled.isSome then s.settled else some (Except.error e) }

/-- The promise state before any worker event. -/
def initPromiseState (V E : Type) : PromiseState V E := ⟨0, [], none⟩

/-- The outcome of the promise returned by parallel, given the stream
of worker events in delivery order: none means the promise never
settles. -/
def runPromise {V E : Type} (count : ℕ) (events : List (WEvent V E)) :
    Option (Except E (List V)) :=
  (events.foldl (handleEvent count) (initPromiseState V E)).settled

/-- The loop indices of the spawn loop in parallel: one worker per
index below count. -/
def workerIndices (count : ℕ) : List ℕ := List.range count

/-!
Helper lemmas.
-/

lemma toInt32_of_inRange (n : ℤ) (h : inInt32Range n) : toInt32 n = n := by
  obtain ⟨h1, h2⟩ := h
  unfold toInt32
  have hlo : (0 : ℤ) ≤ n + 2 ^ 31 := by linarith
  have hhi : n + 2 ^ 31 < 2 ^ 32 := by
    have : (2 : ℤ) ^ 32 = 2 ^ 31 + 2 ^ 31 := by norm_num
    linarith
  rw [Int.emod_eq_of_lt hlo hhi]
  ring

lemma initReg_eq : initReg = -1 := by decide

lemma scaled_neg3 : scaled (-3) = -3000000 := by norm_num [scaled]

lemma scaled_neg5 : scaled (-5) = -5000000 := by norm_num [scaled]

lemma scaled_neg7 : scaled (-7) = -7000000 := by norm_num [scaled]

lemma scaled_neg9 : scaled (-9) = -9000000 := by norm_num [scaled]

lemma seq_call {k : ℕ} (scores : Fin k → ℚ) (s : MachineState k) (i : Fin k)
    (h : s.pcs i = PC.start) :
    List.foldl (mStep scores) s [i, i]
      = ⟨maybeUpdateShared s.reg (scores i), Function.update s.pcs i PC.done⟩ := by
  have h1 : mStep scores s i
      = ⟨s.reg, Function.update s.pcs i (PC.loadedVal s.reg)⟩ := by
    unfold mStep; rw [h]
  have h2 : (Function.update s.pcs i (PC.loadedVal s.reg)) i
      = PC.loadedVal s.reg := Function.update_same i _ s.pcs
  simp only [List.foldl, h1]
  unfold mStep
  simp only [h2]
  unfold maybeUpdateShared
  split
  · simp [Function.update_idem]
  · simp [Function.update_idem]

lemma mRun_seq_aux {k : ℕ} (scores : Fin k → ℚ) :
    ∀ (order : List (Fin k)) (s : MachineState k), order.Nodup →
      (∀ i ∈ order, s.pcs i = PC.start) →
      (List.foldl (mStep scores) s (order.flatMap fun i => [i, i])).reg
        = List.foldl (fun r i => maybeUpdateShared r (scores i)) s.reg order := by
  intro order
  induction order with
  | nil => intro s _ _; rfl
  | cons i rest ih =>
      intro s hnd hstart
      have hi : s.pcs i = PC.start := hstart i (List.mem_cons_self i rest)
      have hsplit : ((i :: rest).flatMap fun j => [j, j])
          = [i, i] ++ rest.flatMap fun j => [j, j] := by simp [List.flatMap]
      rw [hsplit, List.foldl_append, seq_call scores s i hi]
      have hnotmem : i ∉ rest := (List.nodup_cons.mp hnd).1
      have hrest : ∀ j ∈ rest,
          (Function.update s.pcs i PC.done) j = PC.start := by
        intro j hj
        have hne : j ≠ i := fun he => hnotmem (he ▸ hj)
        rw [Function.update_noteq hne]
        exact hstart j (List.mem_cons_of_mem i hj)
      exact ih ⟨maybeUpdateShared s.reg (scores i),
        Function.update s.pcs i PC.done⟩ (List.nodup_cons.mp hnd).2 hrest

lemma maybeUpdateShared_eq_min (reg : ℤ) (s : ℚ)
    (h : inInt32Range (scaled s)) :
    maybeUpdateShared reg s = min reg (scaled s) := by
  unfold maybeUpdateShared
  rw [toInt32_of_inRange _ h]
  split <;> omega

lemma scaled_two : scaled 2 = 2000000 := by norm_num [scaled]

lemma cScores1_range : ∀ i, inInt32Range (scaled (cScores1 i)) := by
  intro i
  fin_cases i
  · show inInt32Range (scaled (-3)); rw [scaled_neg3]; decide
  · show inInt32Range (scaled (-5)); rw [scaled_neg5]; decide

/-!
Claim theorems.
-/

/-- Claim C1 (counterexample): maybeUpdateShared is a load followed by
a conditional store, not a compare-and-swap retry loop, and it is not
race-free: under the interleaving 0, 1, 1, 0 (worker 0 loads, worker 1
loads, stores and finishes, then worker 0 stores) both workers
complete their calls, worker 0 published -3 and worker 1 published -5,
yet the final register value is -3000000 and not the minimum -5000000
of the published candidates: worker 1's update is lost. -/
theorem lostUpdate_interleaving :
    (∀ i, (mRun cScores1 [0, 1, 1, 0]).pcs i = PC.done) ∧
    (mRun cScores1 [0, 1, 1, 0]).reg = -3000000 ∧
    List.foldl min initReg
      (List.map (fun i => scaled (cScores1 i)) [0, 1]) = -5000000 ∧
    (mRun cScores1 [0, 1, 1, 0]).reg
      ≠ List.foldl min initReg
          (List.map (fun i => scaled (cScores1 i)) [0, 1]) := by
  have hreg : (mRun cScores1 [0, 1, 1, 0]).reg = -3000000 := by
    simp [mRun, mStep, mInit, cScores1, initReg_eq, scaled_neg3, scaled_neg5,
      Function.update, toInt32]
  have hmin : List.foldl min initReg
      (List.map (fun i => scaled (cScores1 i)) [0, 1]) = -5000000 := by
    simp [cScores1, initReg_eq, scaled_neg3, scaled_neg5, List.foldl]
  refine ⟨?_, hreg, hmin, ?_⟩
  · intro i
    fin_cases i <;>
      simp [mRun, mStep, mInit, cScores1, initReg_eq, scaled_neg3,
        scaled_neg5, Function.update, toInt32]
  · rw [hreg, hmin]; decide

/-- Claim C1 (amended): maybeUpdateShared is implemented as an atomic
load followed by a conditional atomic store, which admits lost updates
under interleaving; what the code does guarantee is the sequential
property: when the calls do not interleave (every worker's load is
immediately followed by its own store), the final register value is
the minimum of the initial register value and all scaled published
candidates. -/
theorem sequential_final_is_min {k : ℕ} (scores : Fin k → ℚ)
    (order : List (Fin k)) (hnd : order.Nodup)
    (hr : ∀ i, inInt32Range (scaled (scores i))) :
    (mRun scores (order.flatMap fun i => [i, i])).reg
      = List.foldl min initReg (order.map fun i => scaled (scores i)) := by
  rw [mRun, mRun_seq_aux scores order (mInit k) hnd (fun i _ => rfl)]
  rw [List.foldl_map]
  apply List.foldl_ext
  intro r i _
  exact maybeUpdateShared_eq_min r (scores i) (hr i)

/-- Witness for the amended claim C1: two workers running their calls
back to back (schedule 0, 0, 1, 1) end with the register at the true
minimum. -/
theorem sequential_final_is_min_witness :
    (mRun cScores1 (([0, 1] : List (Fin 2)).flatMap fun i => [i, i])).reg
      = List.foldl min initReg
          (([0, 1] : List (Fin 2)).map fun i => scaled (cScores1 i)) :=
  sequential_final_is_min cScores1 [0, 1] (by decide) cScores1_range

/-- Claim C2 (code bug, evaluated at the failing input): the register
parallel allocates for an entangled run is initialized by assigning
Number.MAX_SAFE_INTEGER into an Int32Array cell, which wraps to -1:
the initial value is negative and is not the maximum representable
value of the cell, and a worker reading before any publish observes
descale (-1) = -0.000001, contradicting the source's own comment
about initializing to the maximum. -/
theorem initReg_not_max :
    initReg = -1 ∧ initReg < 0 ∧ initReg ≠ int32Max ∧
    descale initReg = -(1 / 1000000) :=
  ⟨by decide, by decide, by decide, by norm_num [descale, initReg_eq]⟩

/-- Claim C3: the register starts at -1, so for every candidate score
s with s * 1e6 at least -1 (in particular every non-negative score)
maybeUpdateShared leaves the register unchanged, and a worker that
reads before any successful publish observes startingBest
-1 / 1e6 = -0.000001 rather than a maximal sentinel. -/
theorem register_stuck_at_neg_one (s : ℚ) (h : (-1 : ℚ) ≤ s * 1000000) :
    maybeUpdateShared initReg s = initReg ∧ initReg = -1 ∧
    descale initReg = -(1 / 1000000) := by
  have hs : (-1 : ℤ) ≤ scaled s := by
    rw [scaled, Int.le_floor]
    push_cast
    linarith
  refine ⟨?_, initReg_eq, by norm_num [descale, initReg_eq]⟩
  unfold maybeUpdateShared
  rw [initReg_eq, if_neg (by omega)]

/-- Witness for claim C3 at the concrete score 21. -/
theorem register_stuck_at_neg_one_witness :
    maybeUpdateShared initReg 21 = initReg ∧ initReg = -1 ∧
    descale initReg = -(1 / 1000000) :=
  register_stuck_at_neg_one 21 (by norm_num)

/-- Claim C4: a worker computes startingBest from the single register
read at task start, de-scaled by dividing by 1e6, exactly when the
entangled snapshot for its run is true (the shared buffer is passed
exactly then); with the snapshot false, startingBest is plus
infinity whatever the register holds. -/
theorem startingBest_wiring (r : ℤ) :
    startingBest (mkWorkerData true) r = ((descale r : ℚ) : WithTop ℚ) ∧
    startingBest (mkWorkerData false) r = ⊤ := by
  constructor <;> rfl

/-- Claim C5 (counterexample): the register is not monotonic
non-increasing under interleaving. With worker 0 publishing -7 and
worker 1 publishing -9, the schedule 0, 1, 1 leaves the register at
-9000000; the next action, worker 0's conditional store, overwrites
it with -7000000: a single maybeUpdateShared store strictly increased
the stored value. -/
theorem store_increases_register :
    (mRun cScores2 [0, 1, 1]).reg = -9000000 ∧
    mRun cScores2 [0, 1, 1, 0] = mStep cScores2 (mRun cScores2 [0, 1, 1]) 0 ∧
    (mRun cScores2 [0, 1, 1, 0]).reg = -7000000 ∧
    (mRun cScores2 [0, 1, 1]).reg < (mRun cScores2 [0, 1, 1, 0]).reg := by
  have h1 : (mRun cScores2 [0, 1, 1]).reg = -9000000 := by
    simp [mRun, mStep, mInit, cScores2, initReg_eq, scaled_neg7, scaled_neg9,
      Function.update, toInt32]
  have h3 : (mRun cScores2 [0, 1, 1, 0]).reg = -7000000 := by
    simp [mRun, mStep, mInit, cScores2, initReg_eq, scaled_neg7, scaled_neg9,
      Function.update, toInt32]
  exact ⟨h1, rfl, h3, by rw [h1, h3]; decide⟩

/-- Claim C5 (amended): a maybeUpdateShared call that runs without
interleaving (its load and store back to back) never increases the
register: it either leaves the register unchanged or stores the scaled
candidate, and it stores only when the scaled candidate is strictly
below the register value it loaded. -/
theorem maybeUpdateShared_nonincreasing (reg : ℤ) (s : ℚ)
    (h : inInt32Range (scaled s)) :
    maybeUpdateShared reg s ≤ reg ∧
    (maybeUpdateShared reg s = reg ∨
      (maybeUpdateShared reg s = scaled s ∧ scaled s < reg)) := by
  rw [maybeUpdateShared, toInt32_of_inRange _ h]
  split
  · next hlt => exact ⟨le_of_lt hlt, Or.inr ⟨rfl, hlt⟩⟩
  · next hge => exact ⟨le_refl reg, Or.inl rfl⟩

/-- Witness for the amended claim C5 at register 5 and score 2. -/
theorem maybeUpdateShared_nonincreasing_witness :
    maybeUpdateShared 5 2 ≤ 5 ∧
    (maybeUpdateShared 5 2 = 5 ∨
      (maybeUpdateShared 5 2 = scaled 2 ∧ scaled 2 < 5)) :=
  maybeUpdateShared_nonincreasing 5 2 (by rw [scaled_two]; decide)

/-- Claim C6 (counterexample): scaling is Math.floor, which rounds
toward negative infinity, not toward zero: at the score -1/2000000 the
stored value is -1 while truncation toward zero would give 0. And two
scores closer together than 1e-6 are not always indistinguishable:
9/10000000 and 11/10000000 differ by 2e-7 yet scale to 0 and 1. -/
theorem scaling_floor_not_trunc :
    scaled (-(1 / 2000000)) = -1 ∧
    truncTowardZero (-(1 / 2000000) * 1000000) = 0 ∧
    |(9 : ℚ) / 10000000 - 11 / 10000000| < 1 / 1000000 ∧
    scaled ((9 : ℚ) / 10000000) = 0 ∧
    scaled ((11 : ℚ) / 10000000) = 1 ∧
    ((0 : ℤ) ≠ 1) :=
  ⟨by norm_num [scaled], by norm_num [truncTowardZero],
    by
      rw [show (9 : ℚ) / 10000000 - 11 / 10000000 = -(1 / 5000000) by norm_num,
        abs_neg, abs_of_pos (by norm_num : (0 : ℚ) < 1 / 5000000)]
      norm_num,
    by norm_num [scaled], by norm_num [scaled], by decide⟩

/-- Claim C6 (amended): scaling multiplies the candidate by 1000000
and rounds toward negative infinity; two scores are indistinguishable
in the register whenever their products with 1000000 fall in the same
unit interval between consecutive integers, and for non-negative
scores the floor agrees with truncation toward zero. -/
theorem scaling_same_cell_indistinguishable (s₁ s₂ s : ℚ) (k : ℤ)
    (h₁ : (k : ℚ) ≤ s₁ * 1000000) (h₂ : s₁ * 1000000 < k + 1)
    (h₃ : (k : ℚ) ≤ s₂ * 1000000) (h₄ : s₂ * 1000000 < k + 1) :
    scaled s₁ = scaled s₂ ∧
    (0 ≤ s → scaled s = truncTowardZero (s * 1000000)) := by
  constructor
  · have e₁ : scaled s₁ = k := by
      rw [scaled]; rw [Int.floor_eq_iff]; exact ⟨h₁, by linarith⟩
    have e₂ : scaled s₂ = k := by
      rw [scaled]; rw [Int.floor_eq_iff]; exact ⟨h₃, by linarith⟩
    rw [e₁, e₂]
  · intro hs
    rw [scaled, truncTowardZero, if_pos (by positivity)]

/-- Witness for the amended claim C6: 1/10000000 and 2/10000000 lie in
the same unit cell (k = 0) and scale identically, and the score 3
scales by truncation. -/
theorem scaling_same_cell_witness :
    scaled (1 / 10000000) = scaled (2 / 10000000) ∧
    (0 ≤ (3 : ℚ) → scaled 3 = truncTowardZero (3 * 1000000)) :=
  scaling_same_cell_indistinguishable (1 / 10000000) (2 / 10000000) 3 0
    (by norm_num) (by norm_num) (by norm_num) (by norm_num)

/-- Claim C9: parallel snapshots the entangled flag once at launch:
two launches that observe the same flag value produce identical run
configurations and worker wiring, and a flag change made by
entangledMode affects only runs launched afterward, which then see the
new value. -/
theorem entangled_snapshot (s₁ s₂ : QunTimeState) (b : Bool) (count : ℕ)
    (h : s₁.entangled = s₂.entangled) :
    parallelSetup s₁ count = parallelSetup s₂ count ∧
    parallelSetup (entangledMode s₁ b) count = parallelSetup ⟨b⟩ count := by
  constructor
  · obtain ⟨e₁⟩ := s₁
    obtain ⟨e₂⟩ := s₂
    cases h
    rfl
  · rfl

/-- Witness for claim C9: two launches with the flag on, and a toggle
to off that only affects later launches. -/
theorem entangled_snapshot_witness :
    parallelSetup ⟨true⟩ 4 = parallelSetup ⟨true⟩ 4 ∧
    parallelSetup (entangledMode ⟨true⟩ false) 4 = parallelSetup ⟨false⟩ 4 :=
  entangled_snapshot ⟨true⟩ ⟨true⟩ false 4 rfl

lemma foldl_messages {V E : Type} (count : ℕ) :
    ∀ (msgs : List V) (n : ℕ) (res : List V), n + msgs.length < count →
      List.foldl (handleEvent count) ⟨n, res, none⟩
          (msgs.map (WEvent.message (E := E)))
        = ⟨n + msgs.length, res ++ msgs, none⟩ := by
  intro msgs
  induction msgs with
  | nil => intro n res _; simp
  | cons v vs ih =>
      intro n res h
      have hlen : (v :: vs).length = vs.length + 1 := by simp
      have hne : ¬ (n + 1 = count) := by rw [hlen] at h; omega
      have hstep : handleEvent count (⟨n, res, none⟩ : PromiseState V E)
          (WEvent.message v)
          = (⟨n + 1, res ++ [v], none⟩ : PromiseState V E) := by
        simp [handleEvent, hne]
      simp only [List.map_cons, List.foldl_cons, hstep]
      rw [ih (n + 1) (res ++ [v]) (by rw [hlen] at h; omega)]
      have harith : n + 1 + vs.length = n + (v :: vs).length := by
        rw [hlen]; omega
      have happ : (res ++ [v]) ++ vs = res ++ v :: vs := by
        rw [List.append_assoc, List.singleton_append]
      rw [harith, happ]

lemma settled_absorb {V E : Type} (count : ℕ) :
    ∀ (events : List (WEvent V E)) (s : PromiseState V E)
      (x : Except E (List V)), s.settled = some x →
      (events.foldl (handleEvent count) s).settled = some x := by
  intro events
  induction events with
  | nil => intro s x h; exact h
  | cons ev evs ih =>
      intro s x h
      rw [List.foldl_cons]
      apply ih
      cases ev with
      | message v => simp [handleEvent, h]
      | error e => simp [handleEvent, h]

lemma results_length_invariant {V E : Type} (count : ℕ) :
    ∀ (events : List (WEvent V E)) (s : PromiseState V E),
      s.results.length = s.completed →
      (∀ l, s.settled = some (Except.ok l) → l.length = count) →
      ∀ l, (events.foldl (handleEvent count) s).settled
          = some (Except.ok l) → l.length = count := by
  intro events
  induction events with
  | nil => intro s _ h2 l hl; exact h2 l hl
  | cons ev evs ih =>
      intro s h1 h2 l hl
      rw [List.foldl_cons] at hl
      cases ev with
      | message v =>
          refine ih _ ?_ ?_ l hl
          · simp [handleEvent, h1]
          · intro m hm
            simp only [handleEvent] at hm
            by_cases hs : s.settled.isSome
            · rw [if_pos hs] at hm; exact h2 m hm
            · rw [if_neg hs] at hm
              by_cases hc : s.completed + 1 = count
              · rw [if_pos hc] at hm
                have hm2 : Except.ok (s.results ++ [v]) = Except.ok m :=
                  Option.some_inj.mp hm
                have hm3 : s.results ++ [v] = m := by
                  cases hm2; rfl
                rw [← hm3, List.length_append, h1, List.length_singleton]
                exact hc
              · rw [if_neg hc] at hm; simp at hm
      | error e =>
          refine ih _ ?_ ?_ l hl
          · simp [handleEvent, h1]
          · intro m hm
            simp only [handleEvent] at hm
            by_cases hs : s.settled.isSome
            · rw [if_pos hs] at hm; exact h2 m hm
            · rw [if_neg hs] at hm; simp at hm

lemma runPromise_ok_length {V E : Type} (count : ℕ)
    (events : List (WEvent V E)) (l : List V)
    (h : runPromise count events = some (Except.ok l)) : l.length = count := by
  refine results_length_invariant count events (initPromiseState V E)
    rfl ?_ l h
  intro m hm
  simp [initPromiseState] at hm

lemma runPromise_all_messages {V E : Type} (count : ℕ) (msgs : List V)
    (h0 : msgs ≠ []) (hlen : msgs.length = count) :
    runPromise count (msgs.map (WEvent.message (E := E)))
      = some (Except.ok msgs) := by
  rcases List.eq_nil_or_concat msgs with rfl | ⟨vs, v, rfl⟩
  · exact absurd rfl h0
  · have hvs : vs.length + 1 = count := by
      rw [← hlen]; simp
    rw [List.concat_eq_append]
    rw [runPromise, List.map_append, List.foldl_append]
    rw [show initPromiseState V E = ⟨0, [], none⟩ from rfl]
    rw [foldl_messages count vs 0 [] (by omega)]
    simp only [List.map_cons, List.map_nil, List.foldl_cons, List.foldl_nil,
      List.nil_append, Nat.zero_add]
    simp [handleEvent, hvs]

/-- Claim C10: parallel with count 0 spawns no workers (the spawn loop
iterates over no indices), so no handler ever runs; the initial
promise state already has completed equal to the count, but the
completion check lives only inside the message handler, so the
promise never settles: it neither resolves nor rejects. -/
theorem count_zero_never_settles :
    workerIndices 0 = [] ∧
    (initPromiseState ℕ ℕ).completed = 0 ∧
    (initPromiseState ℕ ℕ).settled = none ∧
    runPromise (V := ℕ) (E := ℕ) 0 [] = none :=
  ⟨rfl, rfl, rfl, rfl⟩

/-- Claim C7: for a task returning the constant c, a run with count
workers (count at least 1) resolves with a result list of length
count, all entries c, whatever the completion order of the workers
and whatever startingBest each of them observed; and the count
parameter defaults to 4. -/
theorem parallel_constant_task {V : Type} (c : V) (count : ℕ)
    (order : List (Fin count)) (sbs : Fin count → WithTop ℚ)
    (h1 : 1 ≤ count) (h2 : order.Perm (List.finRange count)) :
    runPromise (E := Unit) count
        (order.map fun i => WEvent.message (constTask c (sbs i)))
      = some (Except.ok (List.replicate count c)) ∧
    parallelDefaultCount = 4 := by
  constructor
  · have hlen : order.length = count := by
      rw [h2.length_eq, List.length_finRange]
    have hmap : (order.map fun i => WEvent.message (constTask c (sbs i)))
        = (List.replicate count c).map (WEvent.message (E := Unit)) := by
      rw [List.map_replicate]
      simp only [constTask]
      rw [List.map_const', hlen]
    rw [hmap]
    exact runPromise_all_messages count (List.replicate count c)
      (by simp; omega) (by simp)
  · rfl

/-- Witness for claim C7: two workers returning 21, completing in
reverse spawn order, resolve with the list 21, 21. -/
theorem parallel_constant_task_witness :
    runPromise (E := Unit) 2
        (([1, 0] : List (Fin 2)).map fun _ =>
          WEvent.message (constTask (21 : ℕ) ⊤))
      = some (Except.ok (List.replicate 2 21)) ∧
    parallelDefaultCount = 4 :=
  parallel_constant_task 21 2 [1, 0] (fun _ => ⊤) (by decide) (by decide)

/-- Claim C8: the promise settles exactly once. If some worker errors
before all count results arrived, the run rejects with that first
error, whatever events follow; and whenever the run resolves, the
result list has length exactly count, never fewer. -/
theorem run_failure_policy {V E : Type} (count : ℕ) (msgs : List V) (e : E)
    (post : List (WEvent V E)) (events : List (WEvent V E)) (l : List V)
    (hlen : msgs.length < count) :
    runPromise count (msgs.map WEvent.message ++ WEvent.error e :: post)
      = some (Except.error e) ∧
    (runPromise count events = some (Except.ok l) → l.length = count) := by
  constructor
  · rw [runPromise, List.foldl_append]
    rw [show initPromiseState V E = ⟨0, [], none⟩ from rfl]
    rw [foldl_messages count msgs 0 [] (by omega)]
    rw [List.foldl_cons]
    have hstep : handleEvent count ⟨0 + msgs.length, [] ++ msgs, none⟩
        (WEvent.error e)
        = ⟨0 + msgs.length, [] ++ msgs, some (Except.error e)⟩ := by
      simp [handleEvent]
    rw [hstep]
    exact settled_absorb count post _ _ rfl
  · intro h
    exact runPromise_ok_length count events l h

/-- Witness for claim C8: with count 2, one result then an error
rejects the run with that error. -/
theorem run_failure_policy_witness :
    runPromise 2 (([5] : List ℕ).map WEvent.message
        ++ WEvent.error (7 : ℕ) :: [])
      = some (Except.error 7) ∧
    (runPromise 2 ([] : List (WEvent ℕ ℕ)) = some (Except.ok ([] : List ℕ))
      → ([] : List ℕ).length = 2) :=
  run_failure_policy 2 [5] 7 [] [] [] (by decide)
